import Mathlib

/-!
Verification of the array-function execution engine
(`dbms/src/Functions/FunctionsArray.cpp`).

An array column is modelled as a flat `data : List α` plus cumulative
exclusive end `offsets : List Nat` (CSR layout); a null overlay is a
parallel `List Bool` with `true` = the element is NULL (the C++ null map
stores `1` for NULL).  Machine `size_t` arithmetic is modelled on `Nat`
with explicit `% 2^64` where the code can overflow.
-/

namespace FunctionsArray

/-- Last offset of the offsets list, i.e. `offsets.back()` with the running
start `current_offset` as default (0 rows leave it unchanged). -/
def lastOffset : Nat → List Nat → Nat
  | current_offset, [] => current_offset
  | _, off :: rest => lastOffset off rest

/-- The offsets invariant of §3 of the design: offsets are non-decreasing
starting from `current_offset`. -/
def offsetsSortedFrom : Nat → List Nat → Bool
  | _, [] => true
  | current_offset, off :: rest => decide (current_offset ≤ off) && offsetsSortedFrom off rest

/-- Row slices of a flat data buffer delimited by cumulative offsets:
row `i` is `data[prev, offsets[i])`. -/
def rowsOf (data : List α) : Nat → List Nat → List (List α)
  | _, [] => []
  | prev, off :: rest => (data.drop prev).take (off - prev) :: rowsOf data off rest

/-- Cumulative offsets from per-row lengths (the `offset += n; out_offsets[i] = offset`
pattern used throughout the source). -/
def accumulateOffsets : Nat → List Nat → List Nat
  | _, [] => []
  | offset, n :: rest => (offset + n) :: accumulateOffsets (offset + n) rest

/-- Per-row lengths recovered from cumulative offsets. -/
def rowLensFrom : Nat → List Nat → List Nat
  | _, [] => []
  | current_offset, off :: rest => (off - current_offset) :: rowLensFrom off rest

/-- Start offset of row `i` (`offsets[i-1]`, or the initial `current_offset`
for the first row). -/
def prevOffsetAt (current_offset : Nat) (offsets : List Nat) (i : Nat) : Nat :=
  if i = 0 then current_offset else offsets.getD (i - 1) current_offset

/-! ### Element access: `ArrayElementNumImpl` and the `NullMapBuilder` -/

/-- One iteration of the loop of `ArrayElementNumImpl::vector` (per-row index):
result value and the flat source index passed to the null-map builder
(`none` models the argument-less `builder.update()` call on a missed access). -/
def arrayElementNumRow (data : List Int) (current_offset off : Nat) (index : Int) :
    Int × Option Nat :=
  let array_size := off - current_offset
  if 0 < index ∧ index.toNat ≤ array_size then
    let j := current_offset + index.toNat - 1
    (data.getD j 0, some j)
  else if index < 0 ∧ (-index).toNat ≤ array_size then
    let j := off - (-index).toNat
    (data.getD j 0, some j)
  else
    (0, none)

/-- `ArrayElementNumImpl::vector`: rows given as `(offsets[i], indices[i])` pairs,
with the running `current_offset` accumulator of the source loop. -/
def vectorNum (data : List Int) : Nat → List (Nat × Int) → List (Int × Option Nat)
  | _, [] => []
  | current_offset, (off, index) :: rest =>
      arrayElementNumRow data current_offset off index :: vectorNum data off rest

/-- `NullMapBuilder::update(from)` / `update()` against a nullable source column:
the sink null-map entry written for one result row (`true` = NULL).
The argument-less `update()` writes `0`, i.e. not-null. -/
def builderEntry (src_null_map : List Bool) : Option Nat → Bool
  | some j => src_null_map.getD j false
  | none => false

/-- `NullMapBuilder` with a constant-`Array` source (`initSource(const Array &)`):
out-of-range source positions count as NULL, and `update()` again writes `0`. -/
def builderEntryConstArray (src_array : List (Option Int)) : Option Nat → Bool
  | some j => if j < src_array.length then (src_array.getD j (some 0)).isNone else true
  | none => false

/-- The nullable execution path of `FunctionArrayElement` over
`ArrayElementNumImpl::vector`: result values plus the rebuilt null map. -/
def vectorNumWithBuilder (data : List Int) (src_null_map : List Bool)
    (offsets : List Nat) (indices : List Int) : List Int × List Bool :=
  let rows := vectorNum data 0 (offsets.zip indices)
  (rows.map Prod.fst, rows.map fun r => builderEntry src_null_map r.2)

/-- One iteration of `ArrayElementNumImpl::vectorConst` (constant index,
already adjusted by the caller: `index-1` for positive, `-index-1` for negative). -/
def vectorConstNum (negative : Bool) (data : List Int) (index : Nat) :
    Nat → List Nat → List (Int × Option Nat)
  | _, [] => []
  | current_offset, off :: rest =>
      (let array_size := off - current_offset
       if index < array_size then
         let j := if negative = false then current_offset + index else off - index - 1
         (data.getD j 0, some j)
       else
         (0, none)) :: vectorConstNum negative data index off rest

/-- Error kinds surfaced by `FunctionArrayElement` (subset relevant here). -/
inductive ArrayElemError where
  | ZeroIndex
  | IllegalColumn
deriving DecidableEq

/-- `FunctionArrayElement::perform`, constant-index branch over a numeric array:
the `ZeroIndex` check precedes every dispatch to an implementation, so no
result column exists when the error is raised. -/
def performConstIndexNum (data : List Int) (offsets : List Nat) (index : Int) :
    Except ArrayElemError (List (Int × Option Nat)) :=
  if index = 0 then Except.error ArrayElemError.ZeroIndex
  else if 0 < index then Except.ok (vectorConstNum false data (index.toNat - 1) 0 offsets)
  else Except.ok (vectorConstNum true data ((-index).toNat - 1) 0 offsets)

/-- `FunctionArrayElement::perform`, per-row-index branch over a numeric array:
there is no zero-index check on this path; `executeArgument` runs
`ArrayElementNumImpl::vector` directly. -/
def performVarIndexNum (data : List Int) (src_null_map : List Bool)
    (offsets : List Nat) (indices : List Int) :
    Except ArrayElemError (List Int × List Bool) :=
  Except.ok (vectorNumWithBuilder data src_null_map offsets indices)

/-- One iteration of `FunctionArrayElement::executeConst` (constant array,
per-row index): the row's result field and the builder source index.
A missed access inserts the default value (`insertDefault`). -/
def executeConstRow (array : List (Option Int)) (index : Int) :
    Option Int × Option Nat :=
  let array_size := array.length
  if 0 < index ∧ index.toNat ≤ array_size then
    let j := index.toNat - 1
    (array.getD j (some 0), some j)
  else if index < 0 ∧ (-index).toNat ≤ array_size then
    let j := array_size - (-index).toNat
    (array.getD j (some 0), some j)
  else
    (some 0, none)

/-! ### Element access over variable-length strings: `ArrayElementStringImpl`

A `ColumnString` is flat bytes `chars` plus cumulative per-string end
offsets `string_offsets`; string `k` occupies bytes
`[string_offsets[k-1], string_offsets[k])` (with `string_offsets[-1] = 0`). -/

/-- Bytes of flat string element `k` of a string column. -/
def stringAt (chars : List Nat) (string_offsets : List Nat) (k : Nat) : List Nat :=
  let string_pos := if k = 0 then 0 else string_offsets.getD (k - 1) 0
  let string_end := string_offsets.getD k 0
  (chars.drop string_pos).take (string_end - string_pos)

/-- One iteration of `ArrayElementStringImpl::vector` (per-row index):
the result row's bytes (the code inserts a single `0` byte — the empty
string — on a miss) and the source index the `NullMapBuilder` observes.
The value computation itself reads the bytes of flat string element
`current_offset + adjusted_index`, while the builder is passed
`current_offset + adjusted_index - 1` unless `current_offset` and
`adjusted_index` are both zero. -/
def arrayElementStringRow (chars string_offsets : List Nat)
    (current_offset off : Nat) (index : Int) : List Nat × Option Nat :=
  let array_size := off - current_offset
  let adjusted_index :=
    if 0 < index ∧ index.toNat ≤ array_size then index.toNat - 1
    else if index < 0 ∧ (-index).toNat ≤ array_size then array_size - (-index).toNat
    else array_size
  if adjusted_index < array_size then
    let j := if current_offset = 0 ∧ adjusted_index = 0 then 0
             else current_offset + adjusted_index - 1
    let string_pos := if current_offset = 0 ∧ adjusted_index = 0 then 0
                      else string_offsets.getD (current_offset + adjusted_index - 1) 0
    let string_size := string_offsets.getD (current_offset + adjusted_index) 0 - string_pos
    ((chars.drop string_pos).take string_size, some j)
  else
    ([0], none)

/-- `ArrayElementStringImpl::vector` over all rows. -/
def vectorString (chars string_offsets : List Nat) :
    Nat → List (Nat × Int) → List (List Nat × Option Nat)
  | _, [] => []
  | current_offset, (off, index) :: rest =>
      arrayElementStringRow chars string_offsets current_offset off index
        :: vectorString chars string_offsets off rest

/-- One iteration of `ArrayElementStringImpl::vectorConst` (constant index,
pre-adjusted by the caller exactly as for `vectorConstNum`): here the
builder is passed `current_offset + adjusted_index`, the very element the
value computation reads. -/
def arrayElementStringConstRow (chars string_offsets : List Nat) (negative : Bool)
    (index : Nat) (current_offset off : Nat) : List Nat × Option Nat :=
  let array_size := off - current_offset
  if index < array_size then
    let adjusted_index := if negative = false then index else array_size - index - 1
    let j := if current_offset = 0 ∧ adjusted_index = 0 then 0
             else current_offset + adjusted_index
    let string_pos := if current_offset = 0 ∧ adjusted_index = 0 then 0
                      else string_offsets.getD (current_offset + adjusted_index - 1) 0
    let string_size := string_offsets.getD (current_offset + adjusted_index) 0 - string_pos
    ((chars.drop string_pos).take string_size, some j)
  else
    ([0], none)

/-! ### `FunctionEmptyArrayToSingleImpl::executeNumber` -/

/-- `FunctionEmptyArrayToSingleImpl::executeNumber<T, nullable>`: returns
`(res_data, res_offsets, res_null_map)`.  The two accumulators are the
source and result running offsets of the loop.  An empty source row emits
one default element and pushes `1` (NULL, `true` here) onto the result
null map; a non-empty row copies its data and null-map slice verbatim. -/
def emptyToSingleNum (src_data : List Int) (src_null_map : List Bool) :
    Nat → Nat → List Nat → List Int × List Nat × List Bool
  | _, _, [] => ([], [], [])
  | src_prev_offset, res_prev_offset, off :: rest =>
      if off ≠ src_prev_offset then
        let size_to_write := off - src_prev_offset
        let out := emptyToSingleNum src_data src_null_map off (res_prev_offset + size_to_write) rest
        ((src_data.drop src_prev_offset).take size_to_write ++ out.1,
         (res_prev_offset + size_to_write) :: out.2.1,
         (src_null_map.drop src_prev_offset).take size_to_write ++ out.2.2)
      else
        let out := emptyToSingleNum src_data src_null_map off (res_prev_offset + 1) rest
        (0 :: out.1, (res_prev_offset + 1) :: out.2.1, true :: out.2.2)

/-! ### `FunctionArrayReverse::executeNumber` -/

/-- The `do_reverse` loop of `FunctionArrayReverse::executeNumber`: every
row segment `[src_prev_offset, offsets[i])` of the flat buffer is written
reversed at the same position of the result (rendered functionally as the
in-order concatenation of the reversed row slices, which coincides with
the imperative writes whenever the offsets tile the buffer). -/
def reverseDataRows (data : List α) : Nat → List Nat → List α
  | _, [] => []
  | src_prev_offset, off :: rest =>
      ((data.drop src_prev_offset).take (off - src_prev_offset)).reverse
        ++ reverseDataRows data off rest

/-- `FunctionArrayReverse::executeNumber` on a null-overlaid numeric array:
data reversed per row, offsets shared with the input
(`res.getOffsetsColumn() = array->getOffsetsColumn()`), and the null map
reversed by `do_reverse` with the identical row boundaries. -/
def arrayReverseNullable (data : List Int) (offsets : List Nat) (null_map : List Bool) :
    List Int × List Nat × List Bool :=
  (reverseDataRows data 0 offsets, offsets, reverseDataRows null_map 0 offsets)

/-! ### `FunctionArrayUniq` -/

/-- Inner loop of `FunctionArrayUniq::executeNumber` for one row: the row is
the zip of values and null flags; non-null values go into the cleared
hash set (modelled as a duplicate-free list), a null only raises
`found_null`.  Returns `set.size() + (found_null ? 1 : 0)`. -/
def arrayUniqRowGo : List (Int × Bool) → List Int → Bool → Nat
  | [], set, found_null => set.length + (if found_null then 1 else 0)
  | (v, is_null) :: rest, set, found_null =>
      if is_null then arrayUniqRowGo rest set true
      else arrayUniqRowGo rest (if v ∈ set then set else v :: set) found_null

/-- `FunctionArrayUniq::executeNumber` over all rows (fresh cleared set and
`found_null` per row). -/
def arrayUniqNum (pairs : List (Int × Bool)) : Nat → List Nat → List Nat
  | _, [] => []
  | prev_off, off :: rest =>
      arrayUniqRowGo ((pairs.drop prev_off).take (off - prev_off)) [] false
        :: arrayUniqNum pairs off rest

/-- `FunctionArrayUniq::executeConst`: a `std::set<Field>` over the literal
array (a NULL field is one more distinct set member). -/
def arrayUniqConst (values : List (Option Int)) : Nat :=
  values.dedup.length

/-! ### `FunctionArrayEnumerateUniq` -/

/-- Lookup in the per-row `ClearableHashMap` (`indices[v]`), most recent
insertion first; absent keys read as `0`. -/
def countsGet : List (Int × Nat) → Int → Nat
  | [], _ => 0
  | (w, c) :: rest, v => if v = w then c else countsGet rest v

/-- Inner loop of `FunctionArrayEnumerateUniq::executeNumber` for one row:
`res_values[j] = ++null_count` at a null position and
`res_values[j] = ++indices[values[j]]` otherwise. -/
def enumUniqRowGo : List (Int × Bool) → List (Int × Nat) → Nat → List Nat
  | [], _, _ => []
  | (v, is_null) :: rest, indices, null_count =>
      if is_null then
        (null_count + 1) :: enumUniqRowGo rest indices (null_count + 1)
      else
        (countsGet indices v + 1)
          :: enumUniqRowGo rest ((v, countsGet indices v + 1) :: indices) null_count

/-- `FunctionArrayEnumerateUniq::executeNumber` over all rows: the map is
cleared and the null counter reset at every row boundary; the flat result
is the concatenation of the per-row rank lists. -/
def arrayEnumerateUniqNum (pairs : List (Int × Bool)) : Nat → List Nat → List Nat
  | _, [] => []
  | prev_off, off :: rest =>
      enumUniqRowGo ((pairs.drop prev_off).take (off - prev_off)) [] 0
        ++ arrayEnumerateUniqNum pairs off rest

/-- Occurrences of value `v` among the non-null positions of a row prefix
(the specification side of claim C7's rank). -/
def countValIn (l : List (Int × Bool)) (v : Int) : Nat :=
  (l.filter fun p => p.2 = false ∧ p.1 = v).length

/-- Null positions of a row prefix. -/
def countNullsIn (l : List (Int × Bool)) : Nat :=
  (l.filter fun p => p.2 = true).length

/-! ### `FunctionRange::executeInternal` -/

/-- Error kind of the range generator. -/
inductive RangeError where
  | ArgumentOutOfBound
deriving DecidableEq

/-- The `std::accumulate` lambda of `FunctionRange::executeInternal`: sums in
`size_t` (modulo `2^64`) and throws when the wrapped sum decreases
(`sum < lhs`).  `none` models the thrown `ARGUMENT_OUT_OF_BOUND`. -/
def rangeCheckedSumGo : Nat → List Nat → Option Nat
  | lhs, [] => some lhs
  | lhs, rhs :: rest =>
      let sum := (lhs + rhs) % 2 ^ 64
      if sum < lhs then none else rangeCheckedSumGo sum rest

/-- `FunctionRange::executeInternal`, non-constant column path: the overflow
and ceiling checks precede any construction of the output (`Except.error`
carries no partial column); afterwards row `i` is filled with
`0, 1, …, in_data[i]-1` and the offsets accumulate the row lengths. -/
def rangeImpl (in_data : List Nat) : Except RangeError (List Nat × List Nat) :=
  match rangeCheckedSumGo 0 in_data with
  | none => Except.error RangeError.ArgumentOutOfBound
  | some total_values =>
      if total_values > 100000000 then Except.error RangeError.ArgumentOutOfBound
      else Except.ok ((in_data.map List.range).flatten, accumulateOffsets 0 in_data)

/-- `FunctionRange::executeInternal`, constant column path: multiplication
overflow is pre-checked by division, then the same ceiling applies. -/
def rangeImplConst (rows : Nat) (in_data : Nat) : Except RangeError (List Nat × List Nat) :=
  if in_data ≠ 0 ∧ rows > (2 ^ 64 - 1) / in_data then
    Except.error RangeError.ArgumentOutOfBound
  else
    let total_values := rows * in_data
    if total_values > 100000000 then Except.error RangeError.ArgumentOutOfBound
    else Except.ok (((List.replicate rows in_data).map List.range).flatten,
                    accumulateOffsets 0 (List.replicate rows in_data))

/-! ### Generic helper lemmas -/

theorem getD_congr {α : Type} : ∀ (l : List α) (i : Nat), i < l.length →
    ∀ (a b : α), l.getD i a = l.getD i b
  | _ :: _, 0, _, _, _ => rfl
  | _ :: xs, i + 1, h, a, b => getD_congr xs i (Nat.lt_of_succ_lt_succ h) a b

theorem map_getD {α β : Type} (f : α → β) : ∀ (l : List α) (i : Nat), i < l.length →
    ∀ (a : α) (b : β), (l.map f).getD i b = f (l.getD i a)
  | _ :: _, 0, _, _, _ => rfl
  | _ :: xs, i + 1, h, a, b => map_getD f xs i (Nat.lt_of_succ_lt_succ h) a b

/-! ### Offsets / rows machinery -/

theorem offsetsSortedFrom_cons {co off : Nat} {rest : List Nat}
    (h : offsetsSortedFrom co (off :: rest) = true) :
    co ≤ off ∧ offsetsSortedFrom off rest = true := by
  simpa [offsetsSortedFrom] using h

theorem le_lastOffset : ∀ (offsets : List Nat) (co : Nat),
    offsetsSortedFrom co offsets = true → co ≤ lastOffset co offsets
  | [], _, _ => Nat.le_refl _
  | off :: rest, co, h => by
      obtain ⟨h1, h2⟩ := offsetsSortedFrom_cons h
      exact Nat.le_trans h1 (le_lastOffset rest off h2)

/-- Each row slice has exactly the row length when the offsets are sorted and
stay within the buffer. -/
theorem rowLensFrom_eq_map_length {α : Type} (data : List α) :
    ∀ (offsets : List Nat) (co : Nat), offsetsSortedFrom co offsets = true →
      lastOffset co offsets ≤ data.length →
      (rowsOf data co offsets).map List.length = rowLensFrom co offsets
  | [], _, _, _ => rfl
  | off :: rest, co, h, hcov => by
      obtain ⟨h1, h2⟩ := offsetsSortedFrom_cons h
      simp only [lastOffset] at hcov
      have hoff : off ≤ data.length :=
        Nat.le_trans (le_lastOffset rest off h2) hcov
      simp only [rowsOf, rowLensFrom, List.map_cons,
        rowLensFrom_eq_map_length data rest off h2 hcov, List.length_take,
        List.length_drop]
      congr 1
      omega

/-- Sorted offsets are the accumulation of their own per-row lengths. -/
theorem accumulateOffsets_rowLensFrom :
    ∀ (offsets : List Nat) (co : Nat), offsetsSortedFrom co offsets = true →
      accumulateOffsets co (rowLensFrom co offsets) = offsets
  | [], _, _ => rfl
  | off :: rest, co, h => by
      obtain ⟨h1, h2⟩ := offsetsSortedFrom_cons h
      simp only [rowLensFrom, accumulateOffsets, Nat.add_sub_cancel' h1,
        accumulateOffsets_rowLensFrom rest off h2]

/-- Concatenating the row slices of a covering, sorted offsets list gives
back the buffer (from `co` on). -/
theorem flatten_rowsOf {α : Type} (data : List α) :
    ∀ (offsets : List Nat) (co : Nat), offsetsSortedFrom co offsets = true →
      lastOffset co offsets = data.length →
      (rowsOf data co offsets).flatten = data.drop co
  | [], co, _, hcov => by
      simp only [lastOffset] at hcov
      simp only [rowsOf, List.flatten_nil]
      rw [hcov, List.drop_length]
  | off :: rest, co, h, hcov => by
      obtain ⟨h1, h2⟩ := offsetsSortedFrom_cons h
      simp only [rowsOf, List.flatten_cons, flatten_rowsOf data rest off h2 hcov]
      have hoff : off = off - co + co := by omega
      calc (data.drop co).take (off - co) ++ data.drop off
          = (data.drop co).take (off - co) ++ data.drop (off - co + co) := by rw [← hoff]
        _ = data.drop co := List.drop_take_append_drop' data co (off - co)

/-- Cutting a concatenation of rows at the accumulated row lengths recovers
the rows (stated with an arbitrary already-consumed prefix `pre`). -/
theorem rowsOf_flatten_acc {α : Type} :
    ∀ (rs : List (List α)) (pre : List α),
      rowsOf (pre ++ rs.flatten) pre.length
          (accumulateOffsets pre.length (rs.map List.length)) = rs
  | [], _ => rfl
  | r :: rs, pre => by
      have h1 : ((pre ++ (r ++ rs.flatten)).drop pre.length).take r.length = r := by
        rw [List.drop_left, List.take_left]
      have h2 : rowsOf (pre ++ (r ++ rs.flatten)) (pre.length + r.length)
          (accumulateOffsets (pre.length + r.length) (rs.map List.length)) = rs := by
        have h3 := rowsOf_flatten_acc rs (pre ++ r)
        rw [List.length_append] at h3
        rw [← List.append_assoc]
        exact h3
      simp only [List.map_cons, accumulateOffsets, List.flatten_cons, rowsOf,
        Nat.add_sub_cancel_left, h1, h2]

/-! ### Reverse lemmas -/

/-- `do_reverse` equals the concatenation of the reversed row slices. -/
theorem reverseDataRows_eq_flatten {α : Type} (data : List α) :
    ∀ (offsets : List Nat) (co : Nat),
      reverseDataRows data co offsets = ((rowsOf data co offsets).map List.reverse).flatten
  | [], _ => rfl
  | off :: rest, co => by
      simp only [reverseDataRows, rowsOf, List.map_cons, List.flatten_cons,
        reverseDataRows_eq_flatten data rest off]

/-- Cutting a reversed buffer at the original offsets yields the reversed rows. -/
theorem rowsOf_reverseDataRows {α : Type} (data : List α) (offsets : List Nat)
    (hs : offsetsSortedFrom 0 offsets = true)
    (hcov : lastOffset 0 offsets = data.length) :
    rowsOf (reverseDataRows data 0 offsets) 0 offsets =
      (rowsOf data 0 offsets).map List.reverse := by
  have hlens : ((rowsOf data 0 offsets).map List.reverse).map List.length
      = rowLensFrom 0 offsets := by
    rw [List.map_map]
    have : (List.length ∘ List.reverse (α := α)) = List.length := by
      funext l; simp
    rw [this]
    exact rowLensFrom_eq_map_length data offsets 0 hs (Nat.le_of_eq hcov)
  have hoffs : accumulateOffsets 0 (((rowsOf data 0 offsets).map List.reverse).map List.length)
      = offsets := by
    rw [hlens]
    exact accumulateOffsets_rowLensFrom offsets 0 hs
  have h := rowsOf_flatten_acc ((rowsOf data 0 offsets).map List.reverse) ([] : List α)
  simp only [List.nil_append, List.length_nil, hoffs] at h
  rw [reverseDataRows_eq_flatten]
  exact h

/-- Reversing every row twice restores the flat buffer. -/
theorem reverseDataRows_involutive {α : Type} (data : List α) (offsets : List Nat)
    (hs : offsetsSortedFrom 0 offsets = true)
    (hcov : lastOffset 0 offsets = data.length) :
    reverseDataRows (reverseDataRows data 0 offsets) 0 offsets = data := by
  rw [reverseDataRows_eq_flatten (reverseDataRows data 0 offsets) offsets 0,
    rowsOf_reverseDataRows data offsets hs hcov, List.map_map]
  have : (List.reverse ∘ List.reverse (α := α)) = id := by
    funext l; simp
  rw [this, List.map_id]
  have h := flatten_rowsOf data offsets 0 hs hcov
  simpa using h

/-- Claim C5: for every array `A`, `arrayReverse (arrayReverse A)` equals `A`
element-wise per row, with the same per-row offsets (the result shares the
input's offsets column), and with the null-overlay bitmap also restored to
its original state. -/
theorem arrayReverse_arrayReverse (data : List Int) (offsets : List Nat) (null_map : List Bool)
    (hs : offsetsSortedFrom 0 offsets = true)
    (hd : lastOffset 0 offsets = data.length)
    (hn : lastOffset 0 offsets = null_map.length) :
    arrayReverseNullable (arrayReverseNullable data offsets null_map).1
        (arrayReverseNullable data offsets null_map).2.1
        (arrayReverseNullable data offsets null_map).2.2 = (data, offsets, null_map) := by
  simp only [arrayReverseNullable, reverseDataRows_involutive data offsets hs hd,
    reverseDataRows_involutive null_map offsets hs hn]

/-- Witness for claim C5 at the concrete two-row array `[[1,2],[3,4,5]]` with
null overlay `[NULL,2],[3,NULL,5]`. -/
theorem arrayReverse_arrayReverse_witness :
    (offsetsSortedFrom 0 [2, 5] = true ∧ lastOffset 0 [2, 5] = 5)
    ∧ arrayReverseNullable
        (arrayReverseNullable [1, 2, 3, 4, 5] [2, 5] [true, false, false, true, false]).1
        (arrayReverseNullable [1, 2, 3, 4, 5] [2, 5] [true, false, false, true, false]).2.1
        (arrayReverseNullable [1, 2, 3, 4, 5] [2, 5] [true, false, false, true, false]).2.2
      = ([1, 2, 3, 4, 5], [2, 5], [true, false, false, true, false]) :=
  ⟨⟨by decide, by decide⟩,
   arrayReverse_arrayReverse [1, 2, 3, 4, 5] [2, 5] [true, false, false, true, false]
     (by decide) (by decide) (by decide)⟩

/-- Claim C9: `arrayElement` with a constant index equal to 0 fails with the
`ZeroIndex` error for every input array column; the `Except.error` result
carries no result column, so none is produced. -/
theorem arrayElement_constIndex_zero (data : List Int) (offsets : List Nat) :
    performConstIndexNum data offsets 0 = Except.error ArrayElemError.ZeroIndex := rfl

/-! ### Positive / negative index symmetry -/

theorem arrayElementNumRow_neg_symm (data : List Int) (co off : Nat) (k : Int)
    (hco : co ≤ off) (h1 : 1 ≤ k) (h2 : k ≤ (off : Int) - (co : Int)) :
    arrayElementNumRow data co off k
      = arrayElementNumRow data co off (-(((off : Int) - (co : Int)) - k + 1)) := by
  simp only [arrayElementNumRow]
  rw [if_pos (show 0 < k ∧ k.toNat ≤ off - co by omega)]
  rw [if_neg (show ¬(0 < -(((off : Int) - (co : Int)) - k + 1)
        ∧ (-(((off : Int) - (co : Int)) - k + 1)).toNat ≤ off - co) by omega)]
  rw [if_pos (show -(((off : Int) - (co : Int)) - k + 1) < 0
        ∧ (-(-(((off : Int) - (co : Int)) - k + 1))).toNat ≤ off - co by constructor <;> omega)]
  have hj : off - (-(-(((off : Int) - (co : Int)) - k + 1))).toNat = co + k.toNat - 1 := by
    omega
  rw [hj]

/-- Per-row relation between two index columns: row `i` has a valid 1-based
index `k` in the first column and the mirrored negative index
`-(len - k + 1)` in the second; rows are `(offsets[i], k, k2)` triples with
the running `current_offset`. -/
def posNegIndexRel : Nat → List (Nat × Int × Int) → Bool
  | _, [] => true
  | co, (off, k, k2) :: rest =>
      decide (co ≤ off) && decide (1 ≤ k) && decide (k ≤ (off : Int) - (co : Int))
        && decide (k2 = -(((off : Int) - (co : Int)) - k + 1)) && posNegIndexRel off rest

/-- Claim C4: for every array, every row and every valid 1-based index `k`,
`arrayElement(A, k)` equals `arrayElement(A, -(len-k+1))`: positive-from-start
and negative-from-end indexing select the same element (the whole result row,
source index observed by the null-map builder included, coincides). -/
theorem arrayElement_posNeg_symm (data : List Int) :
    ∀ (rows : List (Nat × Int × Int)) (co : Nat),
      posNegIndexRel co rows = true →
      vectorNum data co (rows.map fun r => (r.1, r.2.1))
        = vectorNum data co (rows.map fun r => (r.1, r.2.2))
  | [], _, _ => rfl
  | (off, k, k2) :: rest, co, h => by
      simp only [posNegIndexRel, Bool.and_eq_true, decide_eq_true_eq] at h
      obtain ⟨⟨⟨⟨hco, h1⟩, h2⟩, hk2⟩, hrest⟩ := h
      simp only [List.map_cons, vectorNum]
      exact congrArg₂ List.cons
        (by rw [hk2]; exact arrayElementNumRow_neg_symm data co off k hco h1 h2)
        (arrayElement_posNeg_symm data rest off hrest)

/-- Witness for claim C4: the row `[10,20,30]` with `k = 2` and `k2 = -2`. -/
theorem arrayElement_posNeg_symm_witness :
    posNegIndexRel 0 [(3, 2, -2)] = true
    ∧ vectorNum [10, 20, 30] 0 [(3, 2)] = vectorNum [10, 20, 30] 0 [(3, -2)] :=
  ⟨by decide, arrayElement_posNeg_symm [10, 20, 30] [(3, 2, -2)] 0 (by decide)⟩

/-! ### Out-of-range element access -/

/-- The claim's out-of-range condition: `k` outside `[-len,-1] ∪ [1,len]`
(this includes `k = 0`). -/
def outOfRangeIndex (k : Int) (len : Nat) : Prop :=
  ¬(1 ≤ k ∧ k ≤ (len : Int)) ∧ ¬(-(len : Int) ≤ k ∧ k ≤ -1)

instance (k : Int) (len : Nat) : Decidable (outOfRangeIndex k len) :=
  inferInstanceAs (Decidable (_ ∧ _))

theorem arrayElementNumRow_outOfRange (data : List Int) (co off : Nat) (k : Int)
    (h : outOfRangeIndex k (off - co)) :
    arrayElementNumRow data co off k = (0, none) := by
  obtain ⟨hp, hn⟩ := h
  simp only [arrayElementNumRow]
  rw [if_neg (show ¬(0 < k ∧ k.toNat ≤ off - co) by omega),
    if_neg (show ¬(k < 0 ∧ (-k).toNat ≤ off - co) by omega)]

theorem vectorNum_length (data : List Int) :
    ∀ (pairs : List (Nat × Int)) (co : Nat), (vectorNum data co pairs).length = pairs.length
  | [], _ => rfl
  | (_, _) :: rest, co => by
      simp only [vectorNum, List.length_cons, vectorNum_length data rest _]

theorem vectorNum_getD (data : List Int) :
    ∀ (offsets : List Nat) (indices : List Int) (co i : Nat),
      i < offsets.length → i < indices.length →
      (vectorNum data co (offsets.zip indices)).getD i (0, none)
        = arrayElementNumRow data (prevOffsetAt co offsets i) (offsets.getD i 0)
            (indices.getD i 0)
  | [], _, _, i, h1, _ => absurd h1 (by simp)
  | _ :: _, [], _, i, _, h2 => absurd h2 (by simp)
  | off :: os, k :: ks, co, 0, _, _ => rfl
  | off :: os, k :: ks, co, i + 1, h1, h2 => by
      have ih := vectorNum_getD data os ks off i
        (Nat.lt_of_succ_lt_succ h1) (Nat.lt_of_succ_lt_succ h2)
      show (vectorNum data off (os.zip ks)).getD i (0, none) = _
      rw [ih]
      have hprev : prevOffsetAt off os i = prevOffsetAt co (off :: os) (i + 1) := by
        cases i with
        | zero => rfl
        | succ j =>
            show os.getD j off = os.getD j co
            exact getD_congr os j (by simp only [List.length_cons] at h1; omega) off co
      rw [hprev]
      rfl

/-- Row `i` of the nullable per-row-index execution: value and null flag. -/
theorem vectorNumWithBuilder_getD (data : List Int) (src_null_map : List Bool)
    (offsets : List Nat) (indices : List Int) (i : Nat)
    (h1 : i < offsets.length) (h2 : i < indices.length) :
    (vectorNumWithBuilder data src_null_map offsets indices).1.getD i 0
        = (arrayElementNumRow data (prevOffsetAt 0 offsets i) (offsets.getD i 0)
            (indices.getD i 0)).1
    ∧ (vectorNumWithBuilder data src_null_map offsets indices).2.getD i false
        = builderEntry src_null_map
            (arrayElementNumRow data (prevOffsetAt 0 offsets i) (offsets.getD i 0)
              (indices.getD i 0)).2 := by
  have hlen : i < (vectorNum data 0 (offsets.zip indices)).length := by
    rw [vectorNum_length, List.length_zip]
    omega
  constructor
  · show ((vectorNum data 0 (offsets.zip indices)).map Prod.fst).getD i 0 = _
    rw [map_getD Prod.fst _ i hlen (0, none) 0, vectorNum_getD data offsets indices 0 i h1 h2]
  · show ((vectorNum data 0 (offsets.zip indices)).map
        (fun r => builderEntry src_null_map r.2)).getD i false = _
    rw [map_getD _ _ i hlen (0, none) false, vectorNum_getD data offsets indices 0 i h1 h2]

/-- Counterexample to claim C3 as stated: on the null-overlaid one-row array
`[[5]]` (element not null) with out-of-range index 2, the rebuilt null map
records the position as NOT null (`builder.update()` writes `0`), while the
claim asserts it is recorded as null. -/
theorem arrayElement_outOfRange_counterexample :
    ¬((vectorNumWithBuilder [5] [false] [1] [2]).2.getD 0 false = true) := by decide

/-- Claim C3 (amended): for every array, row and index `k` outside
`[-len,-1] ∪ [1,len]`, `arrayElement` yields the element type's default value
(numeric zero here), and when the array is null-overlaid the result position
is recorded as NOT null — the argument-less `NullMapBuilder::update()` writes
`0` into the sink null map — in both the non-constant-array path
(`ArrayElementNumImpl::vector`) and the constant-array path
(`FunctionArrayElement::executeConst`, which calls `insertDefault`). -/
theorem arrayElement_outOfRange_default (data : List Int) (src_null_map : List Bool)
    (offsets : List Nat) (indices : List Int) (i : Nat)
    (h1 : i < offsets.length) (h2 : i < indices.length)
    (hout : outOfRangeIndex (indices.getD i 0) (offsets.getD i 0 - prevOffsetAt 0 offsets i)) :
    ((vectorNumWithBuilder data src_null_map offsets indices).1.getD i 0 = 0
      ∧ (vectorNumWithBuilder data src_null_map offsets indices).2.getD i false = false)
    ∧ ∀ (arr : List (Option Int)) (k : Int), outOfRangeIndex k arr.length →
        executeConstRow arr k = (some 0, none)
        ∧ builderEntryConstArray arr none = false := by
  constructor
  · obtain ⟨hv, hf⟩ := vectorNumWithBuilder_getD data src_null_map offsets indices i h1 h2
    rw [hv, hf, arrayElementNumRow_outOfRange data _ _ _ hout]
    exact ⟨rfl, rfl⟩
  · intro arr k hk
    obtain ⟨hp, hn⟩ := hk
    refine ⟨?_, rfl⟩
    simp only [executeConstRow]
    rw [if_neg (show ¬(0 < k ∧ k.toNat ≤ arr.length) by omega),
      if_neg (show ¬(k < 0 ∧ (-k).toNat ≤ arr.length) by omega)]

/-- Witness for claim C3 at the array `[[5]]` with null overlay `[not-null]`
and index column `[2]`. -/
theorem arrayElement_outOfRange_default_witness :
    outOfRangeIndex 2 1
    ∧ (vectorNumWithBuilder [5] [false] [1] [2]).1.getD 0 0 = 0
    ∧ (vectorNumWithBuilder [5] [false] [1] [2]).2.getD 0 false = false
    ∧ executeConstRow [some 7] 2 = (some 0, none) :=
  have h := arrayElement_outOfRange_default [5] [false] [1] [2] 0
    (by decide) (by decide) (by decide)
  ⟨by decide, h.1.1, h.1.2, (h.2 [some 7] 2 (by decide)).1⟩

/-- Counterexample to claim C10 as stated: per-row index 0 on the
null-overlaid one-row array `[[5]]` (element not null) leaves the result
position marked NOT null, while the claim asserts it is marked null. -/
theorem arrayElement_varIndex_zero_counterexample :
    ¬((vectorNumWithBuilder [5] [false] [1] [0]).2.getD 0 false = true) := by decide

/-- Claim C10 (amended): a per-row index value of 0 raises no error at all
(the `ZeroIndex` check exists only on the constant-index branch of
`FunctionArrayElement::perform`); that row's result is the element type's
default value, and when the array is null-overlaid the position is marked
NOT null. -/
theorem arrayElement_varIndex_zero (data : List Int) (src_null_map : List Bool)
    (offsets : List Nat) (indices : List Int) (i : Nat)
    (h1 : i < offsets.length) (h2 : i < indices.length)
    (hz : indices.getD i 0 = 0) :
    (performVarIndexNum data src_null_map offsets indices).isOk = true
    ∧ (vectorNumWithBuilder data src_null_map offsets indices).1.getD i 0 = 0
    ∧ (vectorNumWithBuilder data src_null_map offsets indices).2.getD i false = false := by
  refine ⟨rfl, ?_⟩
  obtain ⟨hv, hf⟩ := vectorNumWithBuilder_getD data src_null_map offsets indices i h1 h2
  rw [hv, hf, hz, arrayElementNumRow_outOfRange data _ _ 0 (by constructor <;> omega)]
  exact ⟨rfl, rfl⟩

/-- Witness for claim C10 at the array `[[5]]` with null overlay `[not-null]`
and index column `[0]`. -/
theorem arrayElement_varIndex_zero_witness :
    (performVarIndexNum [5] [false] [1] [0]).isOk = true
    ∧ (vectorNumWithBuilder [5] [false] [1] [0]).1.getD 0 0 = 0
    ∧ (vectorNumWithBuilder [5] [false] [1] [0]).2.getD 0 false = false :=
  arrayElement_varIndex_zero [5] [false] [1] [0] 0 (by decide) (by decide) (by decide)

/-- Claim C1: lock-step null-map rebuilding fails on the per-row-index
variable-length-string path.  For the one-row array `["a","b"]`
(`chars = "a\0b\0"`, string offsets `[2,4]`) with per-row index column `[2]`,
the value computation reads flat string element 1 (the bytes of `"b"`), but
`ArrayElementStringImpl::vector` passes `current_offset + adjusted_index - 1
= 0` to the null-map builder instead of `1`; the constant-index path
(`vectorConst`) passes the correct index `1` on the same access.  With the
element null map `[NULL, not-null]` the builder therefore marks the result
NULL although the element actually read is not null. -/
theorem arrayElementString_builder_mismatch :
    arrayElementStringRow [97, 0, 98, 0] [2, 4] 0 2 2
        = (stringAt [97, 0, 98, 0] [2, 4] 1, some 0)
    ∧ arrayElementStringConstRow [97, 0, 98, 0] [2, 4] false 1 0 2
        = (stringAt [97, 0, 98, 0] [2, 4] 1, some 1)
    ∧ (some 0 : Option Nat) ≠ some 1
    ∧ builderEntry [true, false] (some 0) = true
    ∧ builderEntry [true, false] (some 1) = false := by decide

/-- Counterexample to claim C2 as stated: for the nullable input with a single
empty row, the synthesized default element is NOT marked not-null — the code
pushes `1` (NULL) onto the result null map. -/
theorem emptyArrayToSingle_counterexample :
    ¬((emptyToSingleNum [] [] 0 0 [0]).2.2 = [false]) := by decide

/-- Structural characterization of `emptyToSingleNum`: empty rows become
`[default]` with a NULL bitmap entry, non-empty rows are copied verbatim. -/
theorem emptyToSingleNum_eq (src_data : List Int) (src_null_map : List Bool) :
    ∀ (offsets : List Nat) (src_prev res_prev : Nat),
      offsetsSortedFrom src_prev offsets = true →
      lastOffset src_prev offsets ≤ src_data.length →
      lastOffset src_prev offsets ≤ src_null_map.length →
      emptyToSingleNum src_data src_null_map src_prev res_prev offsets =
        (((rowsOf src_data src_prev offsets).map fun r => if r = [] then [0] else r).flatten,
         accumulateOffsets res_prev
           ((rowLensFrom src_prev offsets).map fun n => if n = 0 then 1 else n),
         ((rowsOf src_null_map src_prev offsets).map fun r => if r = [] then [true] else r).flatten)
  | [], _, _, _, _, _ => rfl
  | off :: rest, src_prev, res_prev, hs, hd, hn => by
      obtain ⟨h1, h2⟩ := offsetsSortedFrom_cons hs
      simp only [lastOffset] at hd hn
      by_cases heq : off = src_prev
      · have ih := emptyToSingleNum_eq src_data src_null_map rest off (res_prev + 1) h2 hd hn
        subst heq
        simp only [emptyToSingleNum, ih, rowsOf, rowLensFrom, List.map_cons,
          accumulateOffsets, List.flatten_cons, Nat.sub_self, List.take_zero,
          ne_eq, not_true_eq_false, if_false, if_pos rfl, if_true, List.singleton_append]
      · have hlt : src_prev < off := Nat.lt_of_le_of_ne h1 fun h => heq h.symm
        have hoffd : off ≤ src_data.length := Nat.le_trans (le_lastOffset rest off h2) hd
        have hoffn : off ≤ src_null_map.length := Nat.le_trans (le_lastOffset rest off h2) hn
        have hsliced : ((src_data.drop src_prev).take (off - src_prev)).length
            = off - src_prev := by
          simp only [List.length_take, List.length_drop]; omega
        have hslicen : ((src_null_map.drop src_prev).take (off - src_prev)).length
            = off - src_prev := by
          simp only [List.length_take, List.length_drop]; omega
        have hned : (src_data.drop src_prev).take (off - src_prev) ≠ [] := by
          intro h; rw [h] at hsliced; simp at hsliced; omega
        have hnen : (src_null_map.drop src_prev).take (off - src_prev) ≠ [] := by
          intro h; rw [h] at hslicen; simp at hslicen; omega
        have ih := emptyToSingleNum_eq src_data src_null_map rest off
          (res_prev + (off - src_prev)) h2 hd hn
        simp only [emptyToSingleNum, if_pos heq, ih, rowsOf, rowLensFrom, List.map_cons,
          accumulateOffsets, List.flatten_cons, if_neg hned, if_neg hnen,
          if_neg (show ¬(off - src_prev = 0) by omega)]

/-- Claim C2 (amended): the empty-to-default-singleton operation replaces each
row of length 0 by a one-element row holding the element type's default
value and, when the element type is null-overlaid, marks that synthesized
element as NULL (the code pushes `1` onto the result null map); every row of
non-zero length passes through with its data and bitmap unchanged. -/
theorem emptyArrayToSingle_rows (src_data : List Int) (src_null_map : List Bool)
    (offsets : List Nat)
    (hs : offsetsSortedFrom 0 offsets = true)
    (hd : lastOffset 0 offsets ≤ src_data.length)
    (hn : lastOffset 0 offsets ≤ src_null_map.length) :
    rowsOf (emptyToSingleNum src_data src_null_map 0 0 offsets).1 0
        (emptyToSingleNum src_data src_null_map 0 0 offsets).2.1
      = (rowsOf src_data 0 offsets).map (fun r => if r = [] then [0] else r)
    ∧ rowsOf (emptyToSingleNum src_data src_null_map 0 0 offsets).2.2 0
        (emptyToSingleNum src_data src_null_map 0 0 offsets).2.1
      = (rowsOf src_null_map 0 offsets).map (fun r => if r = [] then [true] else r) := by
  rw [emptyToSingleNum_eq src_data src_null_map offsets 0 0 hs hd hn]
  have hlens : ∀ {α : Type} [DecidableEq α] (dflt : α) (rows : List (List α)),
      ((rows.map fun r => if r = [] then [dflt] else r).map List.length)
        = (rows.map List.length).map fun n => if n = 0 then 1 else n := by
    intro α _ dflt rows
    rw [List.map_map, List.map_map]
    refine List.map_congr_left fun r _ => ?_
    by_cases h : r = []
    · simp [h]
    · simp only [Function.comp_apply, if_neg h,
        if_neg (show ¬(r.length = 0) by simpa [List.length_eq_zero] using h)]
  constructor
  · have h := rowsOf_flatten_acc
      ((rowsOf src_data 0 offsets).map fun r => if r = [] then [0] else r) ([] : List Int)
    rw [List.nil_append, List.length_nil, hlens 0 (rowsOf src_data 0 offsets),
      rowLensFrom_eq_map_length src_data offsets 0 hs hd] at h
    exact h
  · have h := rowsOf_flatten_acc
      ((rowsOf src_null_map 0 offsets).map fun r => if r = [] then [true] else r)
      ([] : List Bool)
    rw [List.nil_append, List.length_nil, hlens true (rowsOf src_null_map 0 offsets),
      rowLensFrom_eq_map_length src_null_map offsets 0 hs hn] at h
    exact h

/-- Witness for claim C2 at the two-row nullable input `[[7],[]]` with
bitmap `[NULL]`. -/
theorem emptyArrayToSingle_rows_witness :
    (offsetsSortedFrom 0 [1, 1] = true ∧ lastOffset 0 [1, 1] ≤ 1)
    ∧ rowsOf (emptyToSingleNum [7] [true] 0 0 [1, 1]).1 0
        (emptyToSingleNum [7] [true] 0 0 [1, 1]).2.1
      = (rowsOf [7] 0 [1, 1]).map (fun r => if r = [] then [0] else r)
    ∧ rowsOf (emptyToSingleNum [7] [true] 0 0 [1, 1]).2.2 0
        (emptyToSingleNum [7] [true] 0 0 [1, 1]).2.1
      = (rowsOf [true] 0 [1, 1]).map (fun r => if r = [] then [true] else r) :=
  have h := emptyArrayToSingle_rows [7] [true] [1, 1] (by decide) (by decide) (by decide)
  ⟨⟨by decide, by decide⟩, h.1, h.2⟩

/-! ### Distinct counting -/

/-- Invariant of the per-row distinct loop: the running set only collects the
distinct non-null values, a null only sets the flag. -/
theorem arrayUniqRowGo_eq :
    ∀ (l : List (Int × Bool)) (set : List Int) (found_null : Bool), set.Nodup →
      arrayUniqRowGo l set found_null =
        (set.toFinset ∪ ((l.filter fun p => !p.2).map Prod.fst).toFinset).card
          + (if (found_null || l.any fun p => p.2) = true then 1 else 0)
  | [], set, found_null, hnd => by
      simp only [arrayUniqRowGo, List.filter_nil, List.map_nil, List.toFinset_nil,
        Finset.union_empty, List.any_nil, Bool.or_false]
      rw [List.card_toFinset, List.Nodup.dedup hnd]
  | (v, b) :: rest, set, found_null, hnd => by
      cases b with
      | true =>
          have hstep : arrayUniqRowGo ((v, true) :: rest) set found_null
              = arrayUniqRowGo rest set true := by
            simp [arrayUniqRowGo]
          rw [hstep, arrayUniqRowGo_eq rest set true hnd]
          simp [List.filter_cons, List.any_cons]
      | false =>
          have hstep : arrayUniqRowGo ((v, false) :: rest) set found_null
              = arrayUniqRowGo rest (if v ∈ set then set else v :: set) found_null := by
            simp [arrayUniqRowGo]
          rw [hstep]
          by_cases hv : v ∈ set
          · rw [if_pos hv, arrayUniqRowGo_eq rest set found_null hnd]
            have hins : insert v (set.toFinset
                ∪ ((rest.filter fun p => !p.2).map Prod.fst).toFinset)
                = set.toFinset ∪ ((rest.filter fun p => !p.2).map Prod.fst).toFinset :=
              Finset.insert_eq_self.mpr
                (Finset.mem_union_left _ (List.mem_toFinset.mpr hv))
            simp [List.filter_cons, List.any_cons, Finset.union_insert, hins, Bool.false_or]
            rfl
          · rw [if_neg hv,
              arrayUniqRowGo_eq rest (v :: set) found_null (List.nodup_cons.mpr ⟨hv, hnd⟩)]
            simp [List.filter_cons, List.any_cons, List.toFinset_cons,
              Finset.insert_union, Finset.union_insert, Bool.false_or]
            rfl

theorem rowsOf_getD {α : Type} (data : List α) :
    ∀ (offsets : List Nat) (co i : Nat), i < offsets.length →
      (rowsOf data co offsets).getD i []
        = (data.drop (prevOffsetAt co offsets i)).take
            (offsets.getD i 0 - prevOffsetAt co offsets i)
  | [], _, i, h => absurd h (by simp)
  | off :: os, co, 0, _ => rfl
  | off :: os, co, i + 1, h => by
      have ih := rowsOf_getD data os off i (Nat.lt_of_succ_lt_succ h)
      show (rowsOf data off os).getD i [] = _
      rw [ih]
      have hprev : prevOffsetAt off os i = prevOffsetAt co (off :: os) (i + 1) := by
        cases i with
        | zero => rfl
        | succ j =>
            show os.getD j off = os.getD j co
            exact getD_congr os j (by simp only [List.length_cons] at h; omega) off co
      rw [hprev]
      rfl

theorem arrayUniqNum_getD (pairs : List (Int × Bool)) :
    ∀ (offsets : List Nat) (co i : Nat), i < offsets.length →
      (arrayUniqNum pairs co offsets).getD i 0
        = arrayUniqRowGo ((pairs.drop (prevOffsetAt co offsets i)).take
            (offsets.getD i 0 - prevOffsetAt co offsets i)) [] false
  | [], _, i, h => absurd h (by simp)
  | off :: os, co, 0, _ => rfl
  | off :: os, co, i + 1, h => by
      have ih := arrayUniqNum_getD pairs os off i (Nat.lt_of_succ_lt_succ h)
      show (arrayUniqNum pairs off os).getD i 0 = _
      rw [ih]
      have hprev : prevOffsetAt off os i = prevOffsetAt co (off :: os) (i + 1) := by
        cases i with
        | zero => rfl
        | succ j =>
            show os.getD j off = os.getD j co
            exact getD_congr os j (by simp only [List.length_cons] at h; omega) off co
      rw [hprev]
      rfl

/-- Claim C6: for every row of a single array argument, `arrayUniq` returns
the number of distinct non-null values in the row plus exactly 1 if at least
one null is present (however many nulls occur); in particular
`arrayUniq([1,NULL,1,NULL,2]) = 3` on both the column path
(`executeNumber`) and the constant path (`executeConst`). -/
theorem arrayUniq_distinct (pairs : List (Int × Bool)) (offsets : List Nat) (i : Nat)
    (h : i < offsets.length) :
    ((arrayUniqNum pairs 0 offsets).getD i 0
      = ((((rowsOf pairs 0 offsets).getD i []).filter fun p => !p.2).map
          Prod.fst).dedup.length
        + (if (((rowsOf pairs 0 offsets).getD i []).any fun p => p.2) = true then 1 else 0))
    ∧ arrayUniqNum [(1, false), (0, true), (1, false), (0, true), (2, false)] 0 [5] = [3]
    ∧ arrayUniqConst [some 1, none, some 1, none, some 2] = 3 := by
  refine ⟨?_, by decide, by decide⟩
  rw [arrayUniqNum_getD pairs offsets 0 i h, rowsOf_getD pairs offsets 0 i h,
    arrayUniqRowGo_eq _ [] false List.nodup_nil]
  simp [List.card_toFinset, Bool.false_or]
  rfl

/-- Witness for claim C6 at the row `[1,NULL,1,NULL,2]`. -/
theorem arrayUniq_distinct_witness :
    (0 < 1)
    ∧ (arrayUniqNum [(1, false), (0, true), (1, false), (0, true), (2, false)] 0 [5]).getD 0 0
      = ((((rowsOf [(1, false), (0, true), (1, false), (0, true), (2, false)] 0 [5]).getD 0
          []).filter fun p => !p.2).map Prod.fst).dedup.length
        + (if (((rowsOf [(1, false), (0, true), (1, false), (0, true), (2, false)] 0 [5]).getD 0
            []).any fun p => p.2) = true then 1 else 0) :=
  ⟨by decide,
   (arrayUniq_distinct [(1, false), (0, true), (1, false), (0, true), (2, false)] [5] 0
     (by decide)).1⟩

/-! ### Enumerate-uniqueness ranks -/

/-- Invariant of the per-row rank loop: position `j` receives the initial
counter for its value (or null class) plus the number of occurrences of that
class in the row prefix up to and including `j`. -/
theorem enumUniqRowGo_getD :
    ∀ (l : List (Int × Bool)) (indices : List (Int × Nat)) (null_count j : Nat),
      j < l.length →
      (enumUniqRowGo l indices null_count).getD j 0 =
        if (l.getD j (0, false)).2 = true then
          null_count + countNullsIn (l.take (j + 1))
        else
          countsGet indices (l.getD j (0, false)).1
            + countValIn (l.take (j + 1)) (l.getD j (0, false)).1
  | [], _, _, j, h => absurd h (by simp)
  | (v, b) :: rest, indices, null_count, 0, _ => by
      cases b with
      | true =>
          simp [enumUniqRowGo, countNullsIn, List.take_succ_cons, List.filter_cons]
      | false =>
          simp [enumUniqRowGo, countValIn, List.take_succ_cons, List.filter_cons]
  | (v, b) :: rest, indices, null_count, j + 1, h => by
      have hj : j < rest.length := by simp only [List.length_cons] at h; omega
      cases b with
      | true =>
          have ih := enumUniqRowGo_getD rest indices (null_count + 1) j hj
          show (enumUniqRowGo rest indices (null_count + 1)).getD j 0 = _
          rw [ih]
          by_cases hb : (rest.getD j (0, false)).2 = true
          · rw [if_pos hb, if_pos (show ((((v, true) :: rest).getD (j + 1) (0, false)).2 = true)
              from hb)]
            show _ = null_count + countNullsIn ((v, true) :: rest.take (j + 1))
            simp [countNullsIn, List.filter_cons]
            omega
          · rw [if_neg hb, if_neg (show ¬(((v, true) :: rest).getD (j + 1) (0, false)).2 = true
              from hb)]
            show _ = countsGet indices ((rest.getD j (0, false)).1)
              + countValIn ((v, true) :: rest.take (j + 1)) ((rest.getD j (0, false)).1)
            simp [countValIn, List.filter_cons]
      | false =>
          have ih := enumUniqRowGo_getD rest ((v, countsGet indices v + 1) :: indices)
            null_count j hj
          show (enumUniqRowGo rest ((v, countsGet indices v + 1) :: indices)
              null_count).getD j 0 = _
          rw [ih]
          by_cases hb : (rest.getD j (0, false)).2 = true
          · rw [if_pos hb, if_pos (show ((((v, false) :: rest).getD (j + 1) (0, false)).2 = true)
              from hb)]
            show _ = null_count + countNullsIn ((v, false) :: rest.take (j + 1))
            simp [countNullsIn, List.filter_cons]
          · rw [if_neg hb, if_neg (show ¬(((v, false) :: rest).getD (j + 1) (0, false)).2 = true
              from hb)]
            show countsGet ((v, countsGet indices v + 1) :: indices) ((rest.getD j (0, false)).1)
                + countValIn (rest.take (j + 1)) ((rest.getD j (0, false)).1)
              = countsGet indices ((rest.getD j (0, false)).1)
                + countValIn ((v, false) :: rest.take (j + 1)) ((rest.getD j (0, false)).1)
            by_cases hv : (rest.getD j (0, false)).1 = v
            · rw [hv]
              simp only [countsGet, if_pos rfl, countValIn, List.filter_cons]
              simp
              omega
            · simp only [countsGet, if_neg hv, countValIn, List.filter_cons]
              split
              · next hc =>
                  have hcc : v = (rest.getD j (0, false)).1 :=
                    (of_decide_eq_true hc).2
                  exact absurd hcc.symm hv
              · rfl

/-- Claim C7: in enumerate-uniqueness each element position receives the
1-based count of occurrences of its value seen so far within its row (in
element order), nulls being ranked by a separate per-row null counter; all
counters are reset at every row boundary (the column function starts each
row from the cleared map `[]` and null counter `0`), so the zipped rows
`[1,2,2,NULL]` and `[1,3]` yield ranks `[1,1,2,1]` and `[1,1]`. -/
theorem arrayEnumerateUniq_ranks :
    (∀ (l : List (Int × Bool)) (j : Nat), j < l.length →
      (enumUniqRowGo l [] 0).getD j 0 =
        if (l.getD j (0, false)).2 = true then countNullsIn (l.take (j + 1))
        else countValIn (l.take (j + 1)) (l.getD j (0, false)).1)
    ∧ arrayEnumerateUniqNum
        [(1, false), (2, false), (2, false), (0, true), (1, false), (3, false)] 0 [4, 6]
      = [1, 1, 2, 1, 1, 1] :=
  ⟨fun l j hj => by
      have h := enumUniqRowGo_getD l [] 0 j hj
      simpa [countsGet] using h,
   by decide⟩

/-- Witness for claim C7 at the second concrete row `[1,3]` restarting after
`[1,2,2,NULL]`, and at position 1 of the row `[1,1]`. -/
theorem arrayEnumerateUniq_ranks_witness :
    (1 < ([(1, false), (1, false)] : List (Int × Bool)).length)
    ∧ (enumUniqRowGo [(1, false), (1, false)] [] 0).getD 1 0 =
        if (([(1, false), (1, false)] : List (Int × Bool)).getD 1 (0, false)).2 = true then
          countNullsIn (([(1, false), (1, false)] : List (Int × Bool)).take 2)
        else countValIn (([(1, false), (1, false)] : List (Int × Bool)).take 2)
          (([(1, false), (1, false)] : List (Int × Bool)).getD 1 (0, false)).1 :=
  ⟨by decide, arrayEnumerateUniq_ranks.1 [(1, false), (1, false)] 1 (by decide)⟩

/-! ### Range generator -/

/-- The wraparound check of the accumulate lambda is complete: the checked
sum succeeds exactly when the true sum fits in `size_t`, and then computes
the true sum. -/
theorem rangeCheckedSumGo_eq :
    ∀ (l : List Nat) (lhs : Nat), (∀ x ∈ l, x < 2 ^ 64) → lhs < 2 ^ 64 →
      rangeCheckedSumGo lhs l =
        if lhs + l.sum < 2 ^ 64 then some (lhs + l.sum) else none
  | [], lhs, _, hl => by
      simp only [rangeCheckedSumGo, List.sum_nil, Nat.add_zero, if_pos hl]
  | rhs :: rest, lhs, hx, hl => by
      have hrhs : rhs < 2 ^ 64 := hx rhs (by simp)
      by_cases hov : lhs + rhs < 2 ^ 64
      · have hmod : (lhs + rhs) % 2 ^ 64 = lhs + rhs := Nat.mod_eq_of_lt hov
        have ih := rangeCheckedSumGo_eq rest (lhs + rhs)
          (fun x hx2 => hx x (by simp [hx2])) hov
        simp only [rangeCheckedSumGo, hmod,
          if_neg (show ¬(lhs + rhs < lhs) by omega), ih, List.sum_cons]
        rw [Nat.add_assoc]
      · have hmod : (lhs + rhs) % 2 ^ 64 = lhs + rhs - 2 ^ 64 := by omega
        simp only [rangeCheckedSumGo, hmod,
          if_pos (show lhs + rhs - 2 ^ 64 < lhs by omega), List.sum_cons,
          if_neg (show ¬(lhs + (rhs + rest.sum) < 2 ^ 64) by omega)]

/-- Claim C8: if summing the per-row upper bounds into the total output
element count overflows `size_t`, or the total exceeds the fixed ceiling of
100,000,000 elements, `range` fails with `ArgumentOutOfBound` (the
`Except.error` result carries no output, so nothing was allocated, written,
or truncated); otherwise each row `n` produces exactly the ascending
sequence `0, 1, …, n-1`.  Both the varying-column and the constant-column
paths are covered. -/
theorem range_checked (in_data : List Nat) (h : ∀ x ∈ in_data, x < 2 ^ 64) :
    (rangeImpl in_data = Except.error RangeError.ArgumentOutOfBound
      ↔ 100000000 < in_data.sum)
    ∧ (∀ d o, rangeImpl in_data = Except.ok (d, o) →
        rowsOf d 0 o = in_data.map List.range ∧ o = accumulateOffsets 0 in_data)
    ∧ (∀ (rows n : Nat), n < 2 ^ 64 →
        (rangeImplConst rows n = Except.error RangeError.ArgumentOutOfBound
          ↔ 100000000 < rows * n)
        ∧ ∀ d o, rangeImplConst rows n = Except.ok (d, o) →
            rowsOf d 0 o = List.replicate rows (List.range n)) := by
  have hmap : (in_data.map List.range).map List.length = in_data := by
    rw [List.map_map]
    have : (List.length ∘ List.range) = id := by funext n; simp
    rw [this, List.map_id]
  have hrows : rowsOf ((in_data.map List.range).flatten) 0 (accumulateOffsets 0 in_data)
      = in_data.map List.range := by
    have h0 := rowsOf_flatten_acc (in_data.map List.range) ([] : List Nat)
    rwa [List.nil_append, List.length_nil, hmap] at h0
  have hsum := rangeCheckedSumGo_eq in_data 0 h (by norm_num)
  rw [Nat.zero_add] at hsum
  refine ⟨?_, ?_, ?_⟩
  · by_cases hfit : in_data.sum < 2 ^ 64
    · rw [if_pos hfit] at hsum
      simp only [rangeImpl, hsum]
      by_cases hceil : 100000000 < in_data.sum
      · simp [hceil]
      · simp [hceil]
    · rw [if_neg hfit] at hsum
      simp only [rangeImpl, hsum]
      constructor
      · intro _; omega
      · intro _; trivial
  · intro d o hok
    by_cases hfit : in_data.sum < 2 ^ 64
    · rw [if_pos hfit] at hsum
      simp only [rangeImpl, hsum] at hok
      by_cases hceil : 100000000 < in_data.sum
      · rw [if_pos hceil] at hok
        exact absurd hok (by simp)
      · rw [if_neg hceil] at hok
        obtain ⟨hd, ho⟩ := Prod.mk.injEq .. ▸ (Except.ok.injEq .. ▸ hok)
        subst hd; subst ho
        exact ⟨hrows, rfl⟩
    · rw [if_neg hfit] at hsum
      simp only [rangeImpl, hsum] at hok
      exact absurd hok (by simp)
  · intro rows n hn
    have hmapc : ((List.replicate rows n).map List.range).map List.length
        = List.replicate rows n := by
      rw [List.map_map]
      have : (List.length ∘ List.range) = id := by funext m; simp
      rw [this, List.map_id]
    have hrowsc : rowsOf (((List.replicate rows n).map List.range).flatten) 0
        (accumulateOffsets 0 (List.replicate rows n))
        = (List.replicate rows n).map List.range := by
      have h0 := rowsOf_flatten_acc ((List.replicate rows n).map List.range) ([] : List Nat)
      rwa [List.nil_append, List.length_nil, hmapc] at h0
    have hrep : (List.replicate rows n).map List.range
        = List.replicate rows (List.range n) := List.map_replicate ..
    have hovb : (n ≠ 0 ∧ (2 ^ 64 - 1) / n < rows) ↔ 2 ^ 64 - 1 < rows * n := by
      constructor
      · rintro ⟨hn0, hdiv⟩
        have := (Nat.div_lt_iff_lt_mul (Nat.pos_of_ne_zero hn0)).mp hdiv
        omega
      · intro hlt
        have hn0 : n ≠ 0 := by rintro rfl; simp at hlt
        exact ⟨hn0, (Nat.div_lt_iff_lt_mul (Nat.pos_of_ne_zero hn0)).mpr (by omega)⟩
    constructor
    · by_cases hov : n ≠ 0 ∧ (2 ^ 64 - 1) / n < rows
      · have hbig : 2 ^ 64 - 1 < rows * n := hovb.mp hov
        simp only [rangeImplConst, if_pos hov]
        constructor
        · intro _; omega
        · intro _; trivial
      · simp only [rangeImplConst, if_neg hov]
        have hsmall : ¬(2 ^ 64 - 1 < rows * n) := fun hc => hov (hovb.mpr hc)
        by_cases hceil : 100000000 < rows * n
        · simp [hceil]
        · simp [hceil]
    · intro d o hok
      by_cases hov : n ≠ 0 ∧ (2 ^ 64 - 1) / n < rows
      · simp only [rangeImplConst, if_pos hov] at hok
        exact absurd hok (by simp)
      · simp only [rangeImplConst, if_neg hov] at hok
        by_cases hceil : 100000000 < rows * n
        · rw [if_pos hceil] at hok
          exact absurd hok (by simp)
        · rw [if_neg hceil] at hok
          obtain ⟨hd, ho⟩ := Prod.mk.injEq .. ▸ (Except.ok.injEq .. ▸ hok)
          subst hd; subst ho
          rw [hrowsc, hrep]

/-- Witness for claim C8 at the input column `[5, 0, 3]`. -/
theorem range_checked_witness :
    (∀ x ∈ ([5, 0, 3] : List Nat), x < 2 ^ 64)
    ∧ (rangeImpl [5, 0, 3] = Except.error RangeError.ArgumentOutOfBound
        ↔ 100000000 < ([5, 0, 3] : List Nat).sum)
    ∧ (rowsOf [0, 1, 2, 3, 4, 0, 1, 2] 0 [5, 5, 8]
        = ([5, 0, 3] : List Nat).map List.range
      ∧ [5, 5, 8] = accumulateOffsets 0 [5, 0, 3]) :=
  ⟨by decide,
   (range_checked [5, 0, 3] (by decide)).1,
   (range_checked [5, 0, 3] (by decide)).2.1 [0, 1, 2, 3, 4, 0, 1, 2] [5, 5, 8] (by rfl)⟩

end FunctionsArray
